import Mathlib

/-!
Verification of the sunvoxgo binding (SolarLune/sunvoxgo).

This file is a shallow embedding, in Lean, of the Go code of the
repository: the pure logic of each binding function is translated into a
Lean definition, with the native SunVox library represented by explicit
oracle parameters (one function per native entry point that the embedded
code calls).  Go machine integers are modelled by `Int`; where the Go code
performs `uint8` / `uint16` arithmetic the embedding wraps explicitly with
`% 256` / `% 65536` (Go unsigned arithmetic is modular).  Go `float32`
values are modelled by `Rat`, in two ways.  For the volume path the plain
rational model is exact: clamping, multiplying by 256, truncating and
dividing by 256 introduce no rounding for clamped float32 inputs.  For the
fade helpers, whose percent accumulation and interpolation do round, the
file carries both an exact-arithmetic idealisation (`vfUpdate`, used only
for the stop-request law, whose branch structure is insensitive to
rounding) and a faithful IEEE-754 binary32 model (`fl32`, round to nearest
with ties to even over the binary32 value grid, including the subnormal
grid; infinities and NaN are outside the model, and values at or beyond
`2^128` are rounded on the extended grid instead of overflowing — all fade
values in the theorems stay far inside the finite range).  `vfUpdateF32`
and `cfUpdateF32` apply `fl32` after every `float32` operation of the
source.  Go `int` is 64-bit on the supported platforms; the `Int` model is
exact as long as no intermediate value leaves the int64 range, which holds
on every input used in the theorems below.
-/

namespace SunvoxGo

/-- Wrap of Go `uint8` arithmetic: values live in `[0, 256)`. -/
def wrap8 (z : Int) : Int := z % 256

/-- Wrap of Go `uint16` arithmetic: values live in `[0, 65536)`. -/
def wrap16 (z : Int) : Int := z % 65536

/-- Outcome of a Go function that may return an error value or hit a
runtime panic (out-of-range slice index). -/
inductive GoResult (α : Type) where
  | err (msg : String)
  | panicked
  | ok (val : α)
deriving DecidableEq, Repr

/-- Sequencing of `GoResult` computations. -/
def GoResult.bind {α β : Type} : GoResult α → (α → GoResult β) → GoResult β
  | .err m, _ => .err m
  | .panicked, _ => .panicked
  | .ok a, f => f a

/-- One cell of a pattern grid (sunvox.go, `SunvoxPatternNoteData`).
`note` and `velocity` are `uint8`, the rest `uint16`. -/
structure SunvoxPatternNoteData where
  note : Int
  velocity : Int
  module : Int
  controller : Int
  controllerValue : Int
deriving DecidableEq, Repr

/-- A pattern data view (sunvox.go, `SunvoxPatternData`): a track count and
the flat cell slice of length `lineCount * trackCount`. -/
structure SunvoxPatternData where
  trackCount : Int
  data : List SunvoxPatternNoteData
deriving DecidableEq, Repr

/-- Embedding of `SunvoxPatternData.noteData` (sunvox.go): computes the flat
index `trackNum + lineNum*trackCount` and applies the bounds test of the
source, which is `i < 0 || i > len(s.Data)`.  An index that passes the test
but is not a valid slice index (exactly `i = len(s.Data)`) makes the Go
slice access `s.Data[i]` panic; the model returns `.panicked` there. -/
def SunvoxPatternData.noteData (s : SunvoxPatternData) (trackNum lineNum : Int) :
    GoResult SunvoxPatternNoteData :=
  let i := trackNum + lineNum * s.trackCount
  if i < 0 ∨ i > (s.data.length : Int) then
    .err "track number or line number outside of the range of the pattern"
  else
    match s.data.get? i.toNat with
    | some nd => .ok nd
    | none => .panicked

/-- Flat index of a cell together with the bounds test of `noteData`, used
to embed the setters (which write through the pointer `noteData` returns). -/
def SunvoxPatternData.cellIndex (s : SunvoxPatternData) (trackNum lineNum : Int) :
    GoResult Nat :=
  let i := trackNum + lineNum * s.trackCount
  if i < 0 ∨ i > (s.data.length : Int) then
    .err "track number or line number outside of the range of the pattern"
  else
    if i.toNat < s.data.length then .ok i.toNat else .panicked

/-- Embedding of `SunvoxPatternData.Note`. -/
def SunvoxPatternData.note (s : SunvoxPatternData) (trackNum lineNum : Int) :
    GoResult Int :=
  (s.noteData trackNum lineNum).bind fun nd => .ok nd.note

/-- Embedding of `SunvoxPatternData.SetNote`: stores the `uint8` argument. -/
def SunvoxPatternData.setNote (s : SunvoxPatternData) (trackNum lineNum v : Int) :
    GoResult SunvoxPatternData :=
  (s.cellIndex trackNum lineNum).bind fun i =>
    match s.data.get? i with
    | some nd => .ok { s with data := s.data.set i { nd with note := wrap8 v } }
    | none => .panicked

/-- Embedding of `SunvoxPatternData.Velocity`. -/
def SunvoxPatternData.velocity (s : SunvoxPatternData) (trackNum lineNum : Int) :
    GoResult Int :=
  (s.noteData trackNum lineNum).bind fun nd => .ok nd.velocity

/-- Embedding of `SunvoxPatternData.SetVelocity`. -/
def SunvoxPatternData.setVelocity (s : SunvoxPatternData) (trackNum lineNum v : Int) :
    GoResult SunvoxPatternData :=
  (s.cellIndex trackNum lineNum).bind fun i =>
    match s.data.get? i with
    | some nd => .ok { s with data := s.data.set i { nd with velocity := wrap8 v } }
    | none => .panicked

/-- Embedding of `SunvoxPatternData.Module` (sunvox.go): returns
`note.Module + 1` in `uint16` arithmetic. -/
def SunvoxPatternData.module (s : SunvoxPatternData) (trackNum lineNum : Int) :
    GoResult Int :=
  (s.noteData trackNum lineNum).bind fun nd => .ok (wrap16 (nd.module + 1))

/-- Embedding of `SunvoxPatternData.SetModule` (sunvox.go): stores
`moduleNumber + 1` in `uint16` arithmetic. -/
def SunvoxPatternData.setModule (s : SunvoxPatternData) (trackNum lineNum v : Int) :
    GoResult SunvoxPatternData :=
  (s.cellIndex trackNum lineNum).bind fun i =>
    match s.data.get? i with
    | some nd => .ok { s with data := s.data.set i { nd with module := wrap16 (v + 1) } }
    | none => .panicked

/-- Embedding of `SunvoxPatternData.Controller` (sunvox.go): returns
`note.Controller - 1` in `uint16` arithmetic. -/
def SunvoxPatternData.controller (s : SunvoxPatternData) (trackNum lineNum : Int) :
    GoResult Int :=
  (s.noteData trackNum lineNum).bind fun nd => .ok (wrap16 (nd.controller - 1))

/-- Embedding of `SunvoxPatternData.SetController` (sunvox.go): stores
`controllerNumber - 1` in `uint16` arithmetic. -/
def SunvoxPatternData.setController (s : SunvoxPatternData) (trackNum lineNum v : Int) :
    GoResult SunvoxPatternData :=
  (s.cellIndex trackNum lineNum).bind fun i =>
    match s.data.get? i with
    | some nd => .ok { s with data := s.data.set i { nd with controller := wrap16 (v - 1) } }
    | none => .panicked

/-- Embedding of `SunvoxPatternData.ControllerValue`. -/
def SunvoxPatternData.ctlValue (s : SunvoxPatternData) (trackNum lineNum : Int) :
    GoResult Int :=
  (s.noteData trackNum lineNum).bind fun nd => .ok nd.controllerValue

/-- Embedding of `SunvoxPatternData.SetControllerValue`. -/
def SunvoxPatternData.setCtlValue (s : SunvoxPatternData) (trackNum lineNum v : Int) :
    GoResult SunvoxPatternData :=
  (s.cellIndex trackNum lineNum).bind fun i =>
    match s.data.get? i with
    | some nd => .ok { s with data := s.data.set i { nd with controllerValue := wrap16 v } }
    | none => .panicked

/-! Module controller accessors (sunvox.go, `SunvoxModule`).  The native
entry points the accessors call are modelled as an oracle record; each
accessor returns its Go result together with the list of native calls it
performed, so that "never forwarded to the native layer" is expressible. -/

/-- Oracle for the native controller entry points.  The fields mirror the
Go function variables `getModuleCtlValue`, `getModuleCtlName`,
`getModuleCtlMin`, `getModuleCtlMax` and `setModuleCtlValue`; arguments are
`(slot, module, ctl, scaled)` and, for the setter, the value. -/
structure NativeModuleCtl where
  getModuleCtlValue : Int → Int → Int → Int → Int
  getModuleCtlName : Int → Int → Int → String
  getModuleCtlMin : Int → Int → Int → Int → Int
  getModuleCtlMax : Int → Int → Int → Int → Int
  setModuleCtlValue : Int → Int → Int → Int → Int → Int

/-- One call into the native controller layer, with the arguments passed. -/
inductive NativeCtlCall where
  | callValue (slot moduleNum ctl scaled : Int)
  | callName (slot moduleNum ctl : Int)
  | callMin (slot moduleNum ctl scaled : Int)
  | callMax (slot moduleNum ctl scaled : Int)
  | callSet (slot moduleNum ctl value scaled : Int)
deriving DecidableEq, Repr

/-- Controller index argument carried by a native call. -/
def NativeCtlCall.ctlIndex : NativeCtlCall → Int
  | .callValue _ _ ctl _ => ctl
  | .callName _ _ ctl => ctl
  | .callMin _ _ ctl _ => ctl
  | .callMax _ _ ctl _ => ctl
  | .callSet _ _ ctl _ _ => ctl

/-- Embedding of `SunvoxModule.ControllerValue` (sunvox.go): rejects
`ctrlNum <= 0`, otherwise calls `getModuleCtlValue` with index
`ctrlNum-1` and scaled mode 2 and rejects a negative result. -/
def controllerValue (nat : NativeModuleCtl) (slot moduleNum ctrlNum : Int) :
    Except String Int × List NativeCtlCall :=
  if ctrlNum ≤ 0 then
    (.error "error getting controller value; controllers 0 and below do not exist", [])
  else
    let res := nat.getModuleCtlValue slot moduleNum (ctrlNum - 1) 2
    (if res < 0 then .error "error retrieving controller value" else .ok res,
     [.callValue slot moduleNum (ctrlNum - 1) 2])

/-- Embedding of `SunvoxModule.ControllerName` (sunvox.go): rejects
`ctrlNum <= 0`, otherwise calls `getModuleCtlName` with index `ctrlNum-1`. -/
def controllerName (nat : NativeModuleCtl) (slot moduleNum ctrlNum : Int) :
    Except String String × List NativeCtlCall :=
  if ctrlNum ≤ 0 then
    (.error "error getting controller name; controllers 0 and below do not exist", [])
  else
    (.ok (nat.getModuleCtlName slot moduleNum (ctrlNum - 1)),
     [.callName slot moduleNum (ctrlNum - 1)])

/-- Embedding of `SunvoxModule.ControllerMinimum` (sunvox.go): rejects
`ctrlNum <= 0`, otherwise calls `getModuleCtlMin` with index `ctrlNum-1`. -/
def controllerMinimum (nat : NativeModuleCtl) (slot moduleNum ctrlNum : Int) :
    Except String Int × List NativeCtlCall :=
  if ctrlNum ≤ 0 then
    (.error "error getting controller minimum value; controllers 0 and below do not exist", [])
  else
    let res := nat.getModuleCtlMin slot moduleNum (ctrlNum - 1) 2
    (if res < 0 then .error "error retrieving controller minimum value" else .ok res,
     [.callMin slot moduleNum (ctrlNum - 1) 2])

/-- Embedding of `SunvoxModule.ControllerMaximum` (sunvox.go): rejects
`ctrlNum <= 0`; otherwise the source calls `getModuleCtlMin` — not
`getModuleCtlMax` — with index `ctrlNum-1`, and that is embedded here
verbatim. -/
def controllerMaximum (nat : NativeModuleCtl) (slot moduleNum ctrlNum : Int) :
    Except String Int × List NativeCtlCall :=
  if ctrlNum ≤ 0 then
    (.error "error getting controller maximum value; controllers 0 and below do not exist", [])
  else
    let res := nat.getModuleCtlMin slot moduleNum (ctrlNum - 1) 2
    (if res < 0 then .error "error retrieving controller maximum value" else .ok res,
     [.callMin slot moduleNum (ctrlNum - 1) 2])

/-- Embedding of `SunvoxModule.SetControllerValue` (sunvox.go): rejects
`ctrlNum <= 0`, otherwise calls `setModuleCtlValue` with index `ctrlNum-1`. -/
def setControllerValue (nat : NativeModuleCtl) (slot moduleNum ctrlNum value : Int) :
    Except String Unit × List NativeCtlCall :=
  if ctrlNum ≤ 0 then
    (.error "error setting control; controllers 0 and below do not exist", [])
  else
    let res := nat.setModuleCtlValue slot moduleNum (ctrlNum - 1) value 2
    (if res < 0 then .error "error setting controller value" else .ok (),
     [.callSet slot moduleNum (ctrlNum - 1) value 2])

/-- Concrete oracle used by witnesses and counterexamples: controller
minimum 7, maximum 300, value 5, setter succeeding. -/
def natOracle : NativeModuleCtl where
  getModuleCtlValue := fun _ _ _ _ => 5
  getModuleCtlName := fun _ _ _ => "Volume"
  getModuleCtlMin := fun _ _ _ _ => 7
  getModuleCtlMax := fun _ _ _ _ => 300
  setModuleCtlValue := fun _ _ _ _ _ => 0

/-! Channel volume (sunvox.go, `SunvoxChannel.SetVolume` / `Volume`). -/

/-- Go conversion `int(q)` from a float: truncation toward zero. -/
def goTrunc (q : Rat) : Int := if 0 ≤ q then ⌊q⌋ else -⌊-q⌋

/-- Clamp of `SetVolume` (sunvox.go): first to at most 1, then at least 0. -/
def clampVolume (volume : Rat) : Rat :=
  let v1 := if volume > 1 then 1 else volume
  if v1 < 0 then 0 else v1

/-- Embedding of `SunvoxChannel.SetVolume` (sunvox.go): clamps to `[0,1]`
and stores `int(volume*256)` as the native slot volume.  Multiplying a
clamped `float32` by 256 and truncating is exact, so the rational model is
the exact float computation. -/
def setVolume (volume : Rat) : Int := goTrunc (clampVolume volume * 256)

/-- Embedding of `SunvoxChannel.Volume` (sunvox.go): queries the stored
native slot volume and returns `float32(res)/256` (exact in float32 for
`res` in `[0,256]`). -/
def volumeRead (stored : Int) : Rat := (stored : Rat) / 256

/-! IEEE-754 binary32 rounding, modelled over `Rat`.  A finite binary32
value is `m * 2^(e-23)` with `|m| < 2^24` and `e ≥ -126`, or a subnormal
`m * 2^-149`; scaling by `2^149` makes every such value an integer and the
grid spacing in the band `[2^F, 2^(F+1))` equal to `2^(F+126)`.  `fl32`
finds the scaled spacing by doubling from 1 while the scaled input still
has headroom, then rounds to the nearest grid point with ties to even. -/

/-- Round a rational to the nearest integer, ties to even. -/
def roundHalfEven (x : Rat) : Int :=
  let f := ⌊x⌋
  if x - f < 1 / 2 then f
  else if x - f > 1 / 2 then f + 1
  else if f % 2 = 0 then f else f + 1

/-- Binary32 rounding of a non-negative rational: scale by `2^149`, find
the grid spacing `2^e` (`e` the number of doublings with headroom, so
`e = 0` on the subnormal grid), round to the nearest multiple with ties to
even, and scale back. -/
def fl32pos (q : Rat) : Rat :=
  let N := q * 2 ^ 149
  let ulp := (List.range 254).foldl
    (fun pw _ => if pw * 2 ^ 24 ≤ N then pw * 2 else pw) (1 : Rat)
  ((roundHalfEven (N / ulp) : Rat) * ulp) / 2 ^ 149

/-- Binary32 round-to-nearest-even of a rational (sign-symmetric). -/
def fl32 (q : Rat) : Rat :=
  if q < 0 then -fl32pos (-q) else fl32pos q

/-! Fade helpers (src/utils.go `VolumeFade`, src/unnamed/part_002
`ControllerFade`). -/

/-- Channel state visible to a `VolumeFade`: the retained project bytes
(`IsValid` is `len(byteData) > 0`), the native slot volume, and a count of
stop requests issued to the channel. -/
structure FadeChannel where
  byteDataLen : Nat
  slotVolume : Int
  stops : Nat
deriving DecidableEq, Repr

/-- Modelled from the spec: `SunvoxChannel.StopAsync` is called by
`VolumeFade.Update` (src/utils.go) but its definition is not among the
provided source files.  Per the spec (playback functions can be called
asynchronously; volume fades ending at or below zero stop channel
playback), it requests a stop of the channel; the model records each
issued stop request. -/
def channelStopAsync (c : FadeChannel) : FadeChannel :=
  { c with stops := c.stops + 1 }

/-- Embedding of `SunvoxChannel.SetVolume` as invoked on a channel value:
stores the clamped fixed-point volume in the native slot. -/
def channelSetVolume (c : FadeChannel) (v : Rat) : FadeChannel :=
  { c with slotVolume := setVolume v }

/-- State of a `VolumeFade` (src/utils.go). -/
structure VolumeFade where
  startVolume : Rat
  endVolume : Rat
  duration : Rat
  percent : Rat
deriving DecidableEq, Repr

/-- Result of one `VolumeFade.Update` call: the mutated fade and channel
and the returned `(float32, bool)` pair. -/
structure VFStep where
  fade : VolumeFade
  channel : FadeChannel
  value : Rat
  completed : Bool
deriving DecidableEq, Repr

/-- Embedding of `VolumeFade.Update` (src/utils.go) over exact rational
arithmetic: advances `percent` by `dt/duration`, clamps to `[0,1]`,
interpolates, applies the volume when the channel is valid, issues a stop
when `percent >= 1 && endVolume <= 0`, and returns the interpolated value
and the completion flag `percent >= 1`.  This idealisation ignores float32
rounding and backs only the stop-request law, whose branch structure does
not depend on the arithmetic; the rounding-faithful model is
`vfUpdateF32`. -/
def vfUpdate (f : VolumeFade) (ch : FadeChannel) (dt : Rat) : VFStep :=
  let p1 := f.percent + dt / f.duration
  let p2 := if p1 > 1 then 1 else p1
  let p3 := if p2 < 0 then 0 else p2
  let targetVolume := f.startVolume + p3 * (f.endVolume - f.startVolume)
  let ch1 := if 0 < ch.byteDataLen then channelSetVolume ch targetVolume else ch
  let ch2 := if p3 ≥ 1 ∧ f.endVolume ≤ 0 then channelStopAsync ch1 else ch1
  ⟨{ f with percent := p3 }, ch2, targetVolume, decide (p3 ≥ 1)⟩

/-- Final state and the per-call outputs of a sequence of
`VolumeFade.Update` calls. -/
structure VFRun where
  fade : VolumeFade
  channel : FadeChannel
  outputs : List (Rat × Bool)
deriving DecidableEq, Repr

/-- Runs `VolumeFade.Update` once per element of `dts`, collecting the
returned `(value, completed)` pairs in call order. -/
def runVolumeFade : VolumeFade → FadeChannel → List Rat → VFRun
  | f, ch, [] => ⟨f, ch, []⟩
  | f, ch, dt :: rest =>
    let st := vfUpdate f ch dt
    let r := runVolumeFade st.fade st.channel rest
    ⟨r.fade, r.channel, (st.value, st.completed) :: r.outputs⟩

/-- Embedding of `VolumeFade.Update` (src/utils.go) with IEEE-754 binary32
rounding applied after every `float32` operation of the source: the
quotient `dt/duration`, the accumulation into `percent`, and each step of
the interpolation `startVolume + percent*(endVolume - startVolume)` round;
the clamp comparisons and the constants 0 and 1 are exact. -/
def vfUpdateF32 (f : VolumeFade) (ch : FadeChannel) (dt : Rat) : VFStep :=
  let p1 := fl32 (f.percent + fl32 (dt / f.duration))
  let p2 := if p1 > 1 then 1 else p1
  let p3 := if p2 < 0 then 0 else p2
  let targetVolume := fl32 (f.startVolume + fl32 (p3 * fl32 (f.endVolume - f.startVolume)))
  let ch1 := if 0 < ch.byteDataLen then channelSetVolume ch targetVolume else ch
  let ch2 := if p3 ≥ 1 ∧ f.endVolume ≤ 0 then channelStopAsync ch1 else ch1
  ⟨{ f with percent := p3 }, ch2, targetVolume, decide (p3 ≥ 1)⟩

/-- Runs the binary32 `VolumeFade.Update` once per element of `dts`. -/
def runVolumeFadeF32 : VolumeFade → FadeChannel → List Rat → VFRun
  | f, ch, [] => ⟨f, ch, []⟩
  | f, ch, dt :: rest =>
    let st := vfUpdateF32 f ch dt
    let r := runVolumeFadeF32 st.fade st.channel rest
    ⟨r.fade, r.channel, (st.value, st.completed) :: r.outputs⟩

/-- Module state visible to a `ControllerFade`: validity flag and the list
of controller values written through `SetControllerValue`. -/
structure FadeModule where
  valid : Bool
  ctlWrites : List Int
deriving DecidableEq, Repr

/-- State of a `ControllerFade` (src/unnamed/part_002).  The integer
endpoints are the Go `int` fields named `start` and `end` in the source
(`end` is reserved in Lean). -/
structure ControllerFade where
  start : Int
  endVal : Int
  duration : Rat
  percent : Rat
deriving DecidableEq, Repr

/-- Result of one `ControllerFade.Update` call. -/
structure CFStep where
  fade : ControllerFade
  module : FadeModule
  value : Int
  completed : Bool
deriving DecidableEq, Repr

/-- Embedding of `ControllerFade.Update` (src/unnamed/part_002) with
binary32 rounding applied after every `float32` operation of the source:
the same percent logic as `VolumeFade.Update`, and the returned value is
`int(float32(start) + percent*(float32(end) - float32(start)))` — the two
int-to-float conversions, the difference, the product and the sum all
round, and the final `int(...)` truncates toward zero. -/
def cfUpdateF32 (f : ControllerFade) (m : FadeModule) (dt : Rat) : CFStep :=
  let p1 := fl32 (f.percent + fl32 (dt / f.duration))
  let p2 := if p1 > 1 then 1 else p1
  let p3 := if p2 < 0 then 0 else p2
  let targetValue := goTrunc (fl32 (fl32 (f.start : Rat) +
    fl32 (p3 * fl32 (fl32 (f.endVal : Rat) - fl32 (f.start : Rat)))))
  let m1 := if m.valid then { m with ctlWrites := m.ctlWrites ++ [targetValue] } else m
  ⟨{ f with percent := p3 }, m1, targetValue, decide (p3 ≥ 1)⟩

/-- Final state and the per-call outputs of a sequence of
`ControllerFade.Update` calls. -/
structure CFRun where
  fade : ControllerFade
  module : FadeModule
  outputs : List (Int × Bool)
deriving DecidableEq, Repr

/-- Runs the binary32 `ControllerFade.Update` once per element of `dts`. -/
def runControllerFadeF32 : ControllerFade → FadeModule → List Rat → CFRun
  | f, m, [] => ⟨f, m, []⟩
  | f, m, dt :: rest =>
    let st := cfUpdateF32 f m dt
    let r := runControllerFadeF32 st.fade st.module rest
    ⟨r.fade, r.module, (st.value, st.completed) :: r.outputs⟩

/-! Channel pool (sunvox.go, `SunvoxEngine.CreateChannel` and
`SunvoxChannel.Close`).  The engine keeps `channels`, a Go map from slot
index to channel; the model keeps the set of occupied keys. -/

/-- Engine state relevant to channel creation. -/
structure SunvoxEngineState where
  initialized : Bool
  channels : Finset Int
deriving DecidableEq

/-- Embedding of the scan loop of `CreateChannel` (sunvox.go): `available`
starts at -1 and the loop takes the first `i` in `0..15` with no entry in
the channel map. -/
def firstFreeAux (channels : Finset Int) : List Nat → Int
  | [] => -1
  | i :: rest => if (i : Int) ∈ channels then firstFreeAux channels rest else (i : Int)

/-- First free slot index in `0..15`, or `-1` when all are occupied. -/
def firstFreeSlot (channels : Finset Int) : Int :=
  firstFreeAux channels (List.range 16)

/-- Embedding of `SunvoxEngine.CreateChannel` (sunvox.go): fails when the
engine is not initialized, scans for the first free slot in `0..15`, fails
with the capacity error when none is free, opens the slot natively
(oracle `openSlotRes`), and registers the new channel under that index. -/
def createChannel (openSlotRes : Int → Int) (e : SunvoxEngineState) :
    Except String (SunvoxEngineState × Int) :=
  if e.initialized = false then
    .error "error: engine has not been initialized"
  else
    let available := firstFreeSlot e.channels
    if available < 0 then
      .error "error: a maximum of 16 channels have been created already; close an existing channel"
    else if openSlotRes available ≠ 0 then
      .error "error creating SunvoxChannel"
    else
      .ok ({ e with channels := insert available e.channels }, available)

/-- Embedding of `SunvoxChannel.Close` (sunvox.go): closes the slot
natively (oracle `closeSlotRes`); on success the channel map entry for the
index is deleted. -/
def closeChannel (closeSlotRes : Int → Int) (e : SunvoxEngineState) (idx : Int) :
    Except String SunvoxEngineState :=
  if closeSlotRes idx ≠ 0 then .error "error closing channel"
  else .ok { e with channels := e.channels.erase idx }

/-! Project loading (sunvox.go, `SunvoxChannel.LoadFileFromBytes` and
`SunvoxChannel.Play`). -/

/-- Channel state relevant to loading and playback. -/
structure LoadChannelState where
  byteData : List Nat
  playing : Bool
  filename : String
deriving DecidableEq, Repr

/-- Embedding of `SunvoxChannel.LoadFileFromBytes` (sunvox.go): forwards
the bytes to the native `loadFileFromMemory` (whose result code is the
oracle `nativeLoadRes`); on a nonzero code it truncates the retained byte
buffer and errors, otherwise it retains the new bytes and clears the
filename.  The function reads no other channel state. -/
def loadFileFromBytes (nativeLoadRes : Int) (data : List Nat) (s : LoadChannelState) :
    LoadChannelState × Except String Unit :=
  if nativeLoadRes ≠ 0 then
    ({ s with byteData := [] }, .error "error loading sunvox data")
  else
    ({ s with byteData := data, filename := "" }, .ok ())

/-- Embedding of `SunvoxChannel.Play` (sunvox.go): calls the native `play`
(result code oracle `nativePlayRes`); on a non-negative code it marks the
channel as playing. -/
def channelPlay (nativePlayRes : Int) (s : LoadChannelState) :
    LoadChannelState × Except String Unit :=
  if nativePlayRes < 0 then (s, .error "error playing SunvoxChannel")
  else ({ s with playing := true }, .ok ())

/-! Custom loops (sunvox.go, `SunvoxChannel.SetCustomLoop` and
`ResetCustomLoop`).  Pattern positions are read and written through the
native `getPatternX` / `setPatternXY`; the model keeps each pattern's
position and line count directly.  Go `int` is 64-bit; within the value
ranges of the theorems below no intermediate leaves the int64 range, so
the `Int` model is exact. -/

/-- Native state of one pattern relevant to the custom loop: its line
position `x` and its line count. -/
structure SunvoxPatternState where
  x : Int
  lineCount : Int
deriving DecidableEq, Repr

/-- Channel state relevant to the custom loop. -/
structure LoopChannelState where
  patterns : List SunvoxPatternState
  hasCustomLoop : Bool
  customLoopStart : Int
  customLoopEnd : Int
deriving DecidableEq, Repr

/-- Sentinel offset of the custom loop machinery (sunvox.go,
`customLoopLineAmount = 99999999`). -/
def customLoopLineAmount : Int := 99999999

/-- Go `math.MaxInt` on a 64-bit platform, the initial value of the
`leastX` scan in `SetCustomLoop`. -/
def maxIntGo : Int := 9223372036854775807

/-- Embedding of `SunvoxChannel.ResetCustomLoop` (sunvox.go): a no-op
without a custom loop; otherwise every pattern at a negative position is
moved right by the sentinel amount and every other pattern is moved right
by the recorded loop start, and the loop bookkeeping is cleared. -/
def resetCustomLoop (s : LoopChannelState) : LoopChannelState :=
  if s.hasCustomLoop = false then s
  else
    { patterns := s.patterns.map fun p =>
        if p.x < 0 then { p with x := p.x + customLoopLineAmount }
        else { p with x := p.x + s.customLoopStart },
      hasCustomLoop := false, customLoopStart := 0, customLoopEnd := 0 }

/-- The `leastX` scan of `SetCustomLoop` (sunvox.go): the least position of
a pattern lying inside `[startX, endX]` (position at least `startX`, end at
most `endX`), starting from `math.MaxInt`.  In the source this min-scan and
the pass-one moves run in one `ForEachPattern` loop, but each iteration
reads and writes only its own pattern, so the scan commutes with the moves
and is modelled as a separate fold over the pre-move patterns. -/
def leastXCalc (startX endX : Int) (pats : List SunvoxPatternState) : Int :=
  pats.foldl
    (fun acc p =>
      if p.x ≥ startX ∧ p.x + p.lineCount ≤ endX then
        (if p.x < acc then p.x else acc)
      else acc)
    maxIntGo

/-- Embedding of `SunvoxChannel.SetCustomLoop` (sunvox.go): returns
unchanged when `(startX, endX)` equals the recorded loop bounds; otherwise
resets any existing loop, then in pass one moves every pattern outside the
range (whose position exceeds -100000) left by the sentinel amount, in
pass two moves every pattern at a positive position left by `leastX`, and
records the loop as `[leastX, endX - leastX]`.  `CustomLooplessX` equals
the plain position during pass one because the reset has cleared
`hasCustomLoop`. -/
def setCustomLoop (startX endX : Int) (s : LoopChannelState) : LoopChannelState :=
  if startX = s.customLoopStart ∧ endX = s.customLoopEnd then s
  else
    let s0 := resetCustomLoop s
    let leastX := leastXCalc startX endX s0.patterns
    let pats1 := s0.patterns.map fun p =>
      if p.x ≥ startX ∧ p.x + p.lineCount ≤ endX then p
      else if p.x > -100000 then { p with x := p.x - customLoopLineAmount } else p
    let pats2 := pats1.map fun p =>
      if p.x > 0 then { p with x := p.x - leastX } else p
    { patterns := pats2, hasCustomLoop := true,
      customLoopStart := leastX, customLoopEnd := endX - leastX }

/-! Theorems. -/

/-- C10: the bounds test of `noteData` is `i < 0 || i > len(Data)`, so the
flattened index `i = len(Data)` — out of the valid cell range — passes the
test and the slice access panics instead of returning an error.  On a
one-track one-line view, `(trackNum, lineNum) = (0, 1)` flattens to index
1 = length and hits the panic in the getter and in a setter alike. -/
theorem c10_noteData_bounds_gap :
    SunvoxPatternData.noteData ⟨1, [⟨0, 0, 0, 0, 0⟩]⟩ 0 1 = .panicked ∧
    SunvoxPatternData.note ⟨1, [⟨0, 0, 0, 0, 0⟩]⟩ 0 1 = .panicked ∧
    SunvoxPatternData.setNote ⟨1, [⟨0, 0, 0, 0, 0⟩]⟩ 0 1 61 = .panicked := by
  decide

/-- C6: setting then reading a cell field round-trips for notes (61 comes
back as 61) but not for modules and controllers: `SetModule` stores
`v + 1` while `Module` returns stored `+ 1`, so `SetModule 5` reads back
as 7; `SetController` stores `v - 1` while `Controller` returns stored
`- 1`, so `SetController 5` reads back as 3. -/
theorem c6_module_controller_roundtrip_mismatch :
    ((⟨1, [⟨0, 0, 0, 0, 0⟩]⟩ : SunvoxPatternData).setNote 0 0 61).bind
      (fun pd => pd.note 0 0) = .ok 61 ∧
    ((⟨1, [⟨0, 0, 0, 0, 0⟩]⟩ : SunvoxPatternData).setModule 0 0 5).bind
      (fun pd => pd.module 0 0) = .ok 7 ∧
    ((⟨1, [⟨0, 0, 0, 0, 0⟩]⟩ : SunvoxPatternData).setController 0 0 5).bind
      (fun pd => pd.controller 0 0) = .ok 3 ∧
    ((⟨1, [⟨0, 0, 0, 0, 0⟩]⟩ : SunvoxPatternData).setCtlValue 0 0 900).bind
      (fun pd => pd.ctlValue 0 0) = .ok 900 ∧
    ((⟨1, [⟨0, 0, 0, 0, 0⟩]⟩ : SunvoxPatternData).setVelocity 0 0 92).bind
      (fun pd => pd.velocity 0 0) = .ok 92 := by
  decide

/-- C7: `ControllerMaximum` does not forward to the native per-controller
maximum query: with an oracle whose minimum query answers 7 and whose
maximum query answers 300, `ControllerMaximum(1)` performs the minimum
call (index 0) and returns 7, the minimum, not 300. -/
theorem c7_controllerMaximum_forwards_min :
    controllerMaximum natOracle 0 0 1 = (.ok 7, [.callMin 0 0 0 2]) ∧
    controllerMinimum natOracle 0 0 1 = (.ok 7, [.callMin 0 0 0 2]) ∧
    natOracle.getModuleCtlMax 0 0 0 2 = 300 := by
  refine ⟨rfl, rfl, rfl⟩

/-- C9: `LoadFileFromBytes` consults no playback state: after a successful
`Play` (channel playing), a load whose native call succeeds returns no
error and replaces the retained project bytes; in general the returned
error and the stored bytes are identical whether or not the channel is
playing. -/
theorem c9_load_ignores_playing :
    loadFileFromBytes 0 [8, 9] (channelPlay 0 ⟨[7], false, ""⟩).1 =
      (⟨[8, 9], true, ""⟩, .ok ()) ∧
    ∀ (res : Int) (data bd : List Nat) (fn : String),
      (loadFileFromBytes res data ⟨bd, true, fn⟩).2 =
        (loadFileFromBytes res data ⟨bd, false, fn⟩).2 ∧
      (loadFileFromBytes res data ⟨bd, true, fn⟩).1.byteData =
        (loadFileFromBytes res data ⟨bd, false, fn⟩).1.byteData := by
  refine ⟨rfl, ?_⟩
  intro res data bd fn
  unfold loadFileFromBytes
  by_cases h : res ≠ 0 <;> simp [h]

/-- C5 counterexample: a volume fade from 1 to 0 with duration 1 on a
valid channel issues one stop request on the `Update` that completes it,
and a second stop request on the next `Update` call after completion — the
channel is not stopped exactly once. -/
theorem c5_counterexample_stop_repeated :
    (runVolumeFade ⟨1, 0, 1, 0⟩ ⟨1, 256, 0⟩ [1]).channel.stops = 1 ∧
    (runVolumeFade ⟨1, 0, 1, 0⟩ ⟨1, 256, 0⟩ [1, 1]).channel.stops = 2 := by
  norm_num [runVolumeFade, vfUpdate, channelStopAsync, channelSetVolume, setVolume,
    clampVolume, goTrunc]

/-- Helper: one `VolumeFade.Update` call preserves the end volume of the
fade. -/
theorem vfUpdate_fade_endVolume (f : VolumeFade) (ch : FadeChannel) (dt : Rat) :
    (vfUpdate f ch dt).fade.endVolume = f.endVolume := rfl

/-- Helper: when the end volume is at or below zero, one
`VolumeFade.Update` call increments the stop-request count exactly when it
reports completion. -/
theorem vfUpdate_stops (f : VolumeFade) (ch : FadeChannel) (dt : Rat)
    (h : f.endVolume ≤ 0) :
    (vfUpdate f ch dt).channel.stops =
      ch.stops + (if (vfUpdate f ch dt).completed = true then 1 else 0) := by
  simp only [vfUpdate, channelSetVolume, channelStopAsync]
  split_ifs with h1 h2 h3 <;> simp_all <;> linarith

/-- C5 amended: for a volume fade whose end volume is at or below zero,
the number of stop requests issued over any sequence of `Update` calls is
the number of calls that report completion — the stop is issued at the
first completing `Update` and again at every later one, not exactly once. -/
theorem c5_stops_per_completed_update (dts : List Rat) :
    ∀ (f : VolumeFade) (ch : FadeChannel), f.endVolume ≤ 0 →
      (runVolumeFade f ch dts).channel.stops =
        ch.stops + (runVolumeFade f ch dts).outputs.countP (fun r => r.2) := by
  induction dts with
  | nil => intro f ch _; simp [runVolumeFade]
  | cons dt rest ih =>
    intro f ch h
    simp only [runVolumeFade]
    have hend : (vfUpdate f ch dt).fade.endVolume ≤ 0 := by
      rw [vfUpdate_fade_endVolume]; exact h
    rw [ih _ _ hend, vfUpdate_stops f ch dt h, List.countP_cons]
    cases hc : (vfUpdate f ch dt).completed <;> simp [hc] <;> omega

/-- C5 witness: the repeated-stop count law applied to a concrete fade to
zero over two updates of one second each. -/
theorem c5_stops_witness :
    (0 : Rat) ≤ 0 ∧
    (runVolumeFade ⟨1, 0, 1, 0⟩ ⟨1, 256, 0⟩ [1, 1]).channel.stops =
      (FadeChannel.mk 1 256 0).stops +
        (runVolumeFade ⟨1, 0, 1, 0⟩ ⟨1, 256, 0⟩ [1, 1]).outputs.countP (fun r => r.2) :=
  ⟨le_refl 0, c5_stops_per_completed_update [1, 1] ⟨1, 0, 1, 0⟩ ⟨1, 256, 0⟩ (le_refl 0)⟩

/-- C3: every module controller accessor rejects `ctrlNum <= 0` with a
descriptive error and performs no native call, and for `ctrlNum >= 1`
each accessor performs exactly one native call carrying the 0-based index
`ctrlNum - 1`. -/
theorem c3_controller_guard (nat : NativeModuleCtl) (slot moduleNum n : Int) :
    (n ≤ 0 →
      controllerValue nat slot moduleNum n =
        (.error "error getting controller value; controllers 0 and below do not exist", []) ∧
      controllerName nat slot moduleNum n =
        (.error "error getting controller name; controllers 0 and below do not exist", []) ∧
      controllerMinimum nat slot moduleNum n =
        (.error "error getting controller minimum value; controllers 0 and below do not exist", []) ∧
      controllerMaximum nat slot moduleNum n =
        (.error "error getting controller maximum value; controllers 0 and below do not exist", []) ∧
      setControllerValue nat slot moduleNum n 1000 =
        (.error "error setting control; controllers 0 and below do not exist", [])) ∧
    (1 ≤ n →
      (controllerValue nat slot moduleNum n).2.map NativeCtlCall.ctlIndex = [n - 1] ∧
      (controllerName nat slot moduleNum n).2.map NativeCtlCall.ctlIndex = [n - 1] ∧
      (controllerMinimum nat slot moduleNum n).2.map NativeCtlCall.ctlIndex = [n - 1] ∧
      (controllerMaximum nat slot moduleNum n).2.map NativeCtlCall.ctlIndex = [n - 1] ∧
      (setControllerValue nat slot moduleNum n 1000).2.map NativeCtlCall.ctlIndex = [n - 1]) := by
  constructor
  · intro h
    simp [controllerValue, controllerName, controllerMinimum, controllerMaximum,
      setControllerValue, h]
  · intro h
    have h0 : ¬ n ≤ 0 := by omega
    simp [controllerValue, controllerName, controllerMinimum, controllerMaximum,
      setControllerValue, h0, NativeCtlCall.ctlIndex]

/-- C3 witness: the guard law applied at controller number 0 (rejected,
no native call) and controller number 1 (forwarded as index 0). -/
theorem c3_controller_guard_witness :
    ((0 : Int) ≤ 0 ∧
      controllerValue natOracle 3 4 0 =
        (.error "error getting controller value; controllers 0 and below do not exist", [])) ∧
    ((1 : Int) ≤ 1 ∧
      (controllerValue natOracle 3 4 1).2.map NativeCtlCall.ctlIndex = [0]) := by
  have h := c3_controller_guard natOracle 3 4
  refine ⟨⟨le_refl 0, ((h 0).1 (le_refl 0)).1⟩, ⟨le_refl 1, ?_⟩⟩
  have h2 := ((h 1).2 (le_refl 1)).1
  simpa using h2

/-- C8: `SetVolume` followed by `Volume` yields a value in `[0,1]` that
differs from the clamped input by less than the 1/256 fixed-point step. -/
theorem c8_volume_roundtrip (v : Rat) :
    0 ≤ volumeRead (setVolume v) ∧ volumeRead (setVolume v) ≤ 1 ∧
    |volumeRead (setVolume v) - clampVolume v| < 1 / 256 := by
  have hc0 : 0 ≤ clampVolume v := by
    simp only [clampVolume]
    split_ifs <;> linarith
  have hc1 : clampVolume v ≤ 1 := by
    simp only [clampVolume]
    split_ifs <;> linarith
  have hx0 : (0 : Rat) ≤ clampVolume v * 256 := by positivity
  have hsv : setVolume v = ⌊clampVolume v * 256⌋ := by
    simp [setVolume, goTrunc, hx0]
  have hfl : (⌊clampVolume v * 256⌋ : Rat) ≤ clampVolume v * 256 :=
    Int.floor_le _
  have hfg : clampVolume v * 256 - 1 < (⌊clampVolume v * 256⌋ : Rat) :=
    Int.sub_one_lt_floor _
  have hf0 : (0 : Rat) ≤ (⌊clampVolume v * 256⌋ : Rat) := by
    exact_mod_cast Int.floor_nonneg.mpr hx0
  rw [hsv]
  unfold volumeRead
  refine ⟨by positivity, ?_, ?_⟩
  · rw [div_le_one (by norm_num : (0 : Rat) < 256)]
    nlinarith
  · rw [abs_lt]
    constructor <;> nlinarith

/-- Helper: Go truncation of an integer-valued rational is the integer. -/
theorem goTrunc_intCast (z : Int) : goTrunc (z : Rat) = z := by
  unfold goTrunc
  split_ifs with h
  · exact_mod_cast Int.floor_intCast z
  · have hneg : -(z : Rat) = ((-z : Int) : Rat) := (Int.cast_neg z).symm
    rw [hneg, Int.floor_intCast]
    ring

/-- Helper: if the scaled input is already below the doubling threshold,
the ulp-search fold leaves its accumulator unchanged. -/
theorem fl32_foldl_stuck (N : Rat) :
    ∀ (l : List Nat) (pw : Rat), ¬ pw * 2 ^ 24 ≤ N →
      l.foldl (fun pw _ => if pw * 2 ^ 24 ≤ N then pw * 2 else pw) pw = pw := by
  intro l
  induction l with
  | nil => intro pw _; rfl
  | cons a l ih =>
    intro pw h
    rw [List.foldl_cons]
    show l.foldl (fun pw _ => if pw * 2 ^ 24 ≤ N then pw * 2 else pw)
      (if pw * 2 ^ 24 ≤ N then pw * 2 else pw) = pw
    rw [if_neg h]
    exact ih pw h

/-- Helper: for a scaled input in the band `[2^(j+24), 2^(j+25))`, the
ulp-search fold doubles up from `2^t` to exactly `2^(j+1)` given enough
steps. -/
theorem fl32_foldl_pow (N : Rat) (j : Nat)
    (h1 : 2 ^ (j + 24) ≤ N) (h2 : N < 2 ^ (j + 25)) :
    ∀ (l : List Nat) (t : Nat) (pw : Rat), pw = 2 ^ t → t ≤ j + 1 →
      j + 1 - t ≤ l.length →
      l.foldl (fun pw _ => if pw * 2 ^ 24 ≤ N then pw * 2 else pw) pw = 2 ^ (j + 1) := by
  intro l
  induction l with
  | nil =>
    intro t pw hpw ht hlen
    simp only [List.length_nil] at hlen
    have ht' : t = j + 1 := by omega
    rw [hpw, ht']
    rfl
  | cons a l ih =>
    intro t pw hpw ht hlen
    subst hpw
    rw [List.foldl_cons]
    simp only [List.length_cons] at hlen
    by_cases htj : t = j + 1
    · subst htj
      have hneg : ¬ (2 : Rat) ^ (j + 1) * 2 ^ 24 ≤ N := by
        have he : (2 : Rat) ^ (j + 1) * 2 ^ 24 = 2 ^ (j + 25) := by
          rw [← pow_add]
        intro hle
        rw [he] at hle
        exact absurd h2 (not_lt.mpr hle)
      show l.foldl (fun pw _ => if pw * 2 ^ 24 ≤ N then pw * 2 else pw)
        (if (2 : Rat) ^ (j + 1) * 2 ^ 24 ≤ N then 2 ^ (j + 1) * 2 else 2 ^ (j + 1)) = _
      rw [if_neg hneg]
      exact fl32_foldl_stuck N l _ hneg
    · have hcond : (2 : Rat) ^ t * 2 ^ 24 ≤ N := by
        have he : (2 : Rat) ^ t * 2 ^ 24 = 2 ^ (t + 24) := (pow_add 2 t 24).symm
        rw [he]
        calc (2 : Rat) ^ (t + 24) ≤ 2 ^ (j + 24) :=
              pow_le_pow_right₀ (by norm_num) (by omega)
          _ ≤ N := h1
      show l.foldl (fun pw _ => if pw * 2 ^ 24 ≤ N then pw * 2 else pw)
        (if (2 : Rat) ^ t * 2 ^ 24 ≤ N then 2 ^ t * 2 else 2 ^ t) = _
      rw [if_pos hcond, ← pow_succ]
      exact ih (t + 1) (2 ^ (t + 1)) rfl (by omega) (by omega)

/-- Helper: closed form of `fl32` on the normal band
`[2^(j-125), 2^(j-124))` (scaled: `q * 2^149` in `[2^(j+24), 2^(j+25))`),
where the grid spacing is `2^(j+1)` after scaling. -/
theorem fl32_eval (q : Rat) (j : Nat) (hj : j ≤ 253)
    (h1 : 2 ^ (j + 24) ≤ q * 2 ^ 149) (h2 : q * 2 ^ 149 < 2 ^ (j + 25)) :
    fl32 q = (roundHalfEven (q * 2 ^ 149 / 2 ^ (j + 1)) : Rat) * 2 ^ (j + 1) / 2 ^ 149 := by
  have hq0 : 0 ≤ q := by
    by_contra hneg
    push_neg at hneg
    have hlt : q * 2 ^ 149 < 0 := mul_neg_of_neg_of_pos hneg (by positivity)
    have hpos : (0 : Rat) < 2 ^ (j + 24) := by positivity
    linarith
  simp only [fl32]
  rw [if_neg (not_lt.mpr hq0)]
  simp only [fl32pos]
  rw [fl32_foldl_pow (q * 2 ^ 149) j h1 h2 (List.range 254) 0 1 (by norm_num) (by omega)
    (by rw [List.length_range]; omega)]

/-- Helper: closed form of `fl32` on the subnormal band (scaled input
below `2^24`), where the grid spacing after scaling is 1. -/
theorem fl32_eval_small (q : Rat) (h0 : 0 ≤ q) (h : q * 2 ^ 149 < 2 ^ 24) :
    fl32 q = (roundHalfEven (q * 2 ^ 149) : Rat) / 2 ^ 149 := by
  simp only [fl32]
  rw [if_neg (not_lt.mpr h0)]
  simp only [fl32pos]
  rw [fl32_foldl_stuck (q * 2 ^ 149) (List.range 254) 1
    (by rw [one_mul]; exact not_le.mpr h), div_one, mul_one]

/-- Helper: rounding an integer to the nearest integer is the identity. -/
theorem roundHalfEven_intCast (n : Int) : roundHalfEven (n : Rat) = n := by
  simp only [roundHalfEven, Int.floor_intCast, sub_self]
  norm_num

/-- Helper: a rational on the binary32 grid of its band is a fixed point
of `fl32`. -/
theorem fl32_eq_self (q : Rat) (j : Nat) (n : Int) (hj : j ≤ 253)
    (h1 : 2 ^ (j + 24) ≤ q * 2 ^ 149) (h2 : q * 2 ^ 149 < 2 ^ (j + 25))
    (hrep : q * 2 ^ 149 = (n : Rat) * 2 ^ (j + 1)) :
    fl32 q = q := by
  rw [fl32_eval q j hj h1 h2, hrep,
    mul_div_cancel_right₀ _ (pow_ne_zero _ (two_ne_zero)), roundHalfEven_intCast]
  field_simp
  linarith [hrep]

theorem fl32_zero : fl32 0 = 0 := by
  rw [fl32_eval_small 0 le_rfl (by norm_num),
    show (0 : Rat) * 2 ^ 149 = ((0 : Int) : Rat) by norm_num, roundHalfEven_intCast]
  norm_num

theorem fl32_neg (q : Rat) (h : 0 ≤ q) : fl32 (-q) = -fl32 q := by
  rcases eq_or_lt_of_le h with heq | hpos
  · rw [← heq, neg_zero, fl32_zero, neg_zero]
  · simp only [fl32]
    rw [if_pos (show -q < 0 by linarith), neg_neg, if_neg (not_lt.mpr h)]

theorem fl32_half : fl32 (1 / 2) = 1 / 2 :=
  fl32_eq_self (1 / 2) 124 8388608 (by norm_num) (by norm_num) (by norm_num) (by norm_num)

theorem fl32_one : fl32 1 = 1 :=
  fl32_eq_self 1 125 8388608 (by norm_num) (by norm_num) (by norm_num) (by norm_num)

theorem fl32_two : fl32 2 = 2 :=
  fl32_eq_self 2 126 8388608 (by norm_num) (by norm_num) (by norm_num) (by norm_num)

theorem fl32_three : fl32 3 = 3 :=
  fl32_eq_self 3 126 12582912 (by norm_num) (by norm_num) (by norm_num) (by norm_num)

theorem fl32_six : fl32 6 = 6 :=
  fl32_eq_self 6 127 12582912 (by norm_num) (by norm_num) (by norm_num) (by norm_num)

theorem fl32_seven : fl32 7 = 7 :=
  fl32_eq_self 7 127 14680064 (by norm_num) (by norm_num) (by norm_num) (by norm_num)

theorem fl32_nine : fl32 9 = 9 :=
  fl32_eq_self 9 128 9437184 (by norm_num) (by norm_num) (by norm_num) (by norm_num)

/-- Helper: `0.5 - 2^-25` (the float32 just below one half) is exactly
representable. -/
theorem fl32_halfPred : fl32 (16777215 / 33554432) = 16777215 / 33554432 :=
  fl32_eq_self (16777215 / 33554432) 123 16777215
    (by norm_num) (by norm_num) (by norm_num) (by norm_num)

/-- Helper: `1 - 2^-25` rounds up to 1 in binary32: the scaled quotient is
the exact tie `16777215.5`, whose floor is odd, so ties-to-even rounds to
`2^24`. -/
theorem fl32_tieOne : fl32 (33554431 / 33554432) = 1 := by
  rw [fl32_eval (33554431 / 33554432) 124 (by norm_num) (by norm_num) (by norm_num),
    show (33554431 / 33554432 : Rat) * 2 ^ 149 / 2 ^ 125 = 33554431 / 2 by norm_num]
  have hfl : ⌊(33554431 / 2 : Rat)⌋ = 16777215 := by
    rw [Int.floor_eq_iff]
    norm_num
  have hr : roundHalfEven (33554431 / 2 : Rat) = 16777216 := by
    simp only [roundHalfEven, hfl]
    norm_num
  rw [hr]
  norm_num

theorem fl32_negTie : fl32 (-(33554431 / 33554432)) = -1 := by
  rw [fl32_neg _ (by norm_num), fl32_tieOne]

theorem fl32_negOne : fl32 (-1) = -1 := by
  rw [fl32_neg 1 (by norm_num), fl32_one]

theorem goTrunc_six : goTrunc (6 : Rat) = 6 := by
  rw [show (6 : Rat) = ((6 : Int) : Rat) by norm_num, goTrunc_intCast]

theorem goTrunc_nine : goTrunc (9 : Rat) = 9 := by
  rw [show (9 : Rat) = ((9 : Int) : Rat) by norm_num, goTrunc_intCast]

/-- Helper: the two-step clamp of the fade percent equals `min 1 S` for
non-negative `S`. -/
theorem clampStep_eq (S : Rat) (h0 : 0 ≤ S) :
    (if (if S > 1 then 1 else S) < 0 then (0 : Rat) else if S > 1 then 1 else S) =
      min 1 S := by
  by_cases h1 : S > 1
  · rw [if_pos h1, if_neg (by norm_num : ¬ (1 : Rat) < 0)]
    exact (min_eq_left h1.le).symm
  · rw [if_neg h1, if_neg (not_lt.mpr h0)]
    exact (min_eq_right (le_of_not_lt h1)).symm

/-- Helper: behaviour of one binary32 `VolumeFade.Update` when the
quotient, the accumulated percent, the volume difference and the end
volume are all exactly representable: completion is reported iff the
exact accumulated percent reaches 1, a non-completing call stores the
exact percent, and a completing call returns the end volume. -/
theorem vfUpdateF32_spec (sv ev d s dt : Rat) (ch : FadeChannel)
    (hs0 : 0 ≤ s) (hdt : 0 ≤ dt) (hd : 0 < d)
    (hq : fl32 (dt / d) = dt / d) (hsum : fl32 (s + dt / d) = s + dt / d)
    (hsub : fl32 (ev - sv) = ev - sv) (hev : fl32 ev = ev) :
    ((vfUpdateF32 ⟨sv, ev, d, s⟩ ch dt).completed = true ↔ 1 ≤ s + dt / d) ∧
    (s + dt / d < 1 →
      (vfUpdateF32 ⟨sv, ev, d, s⟩ ch dt).fade = ⟨sv, ev, d, s + dt / d⟩) ∧
    (1 ≤ s + dt / d → (vfUpdateF32 ⟨sv, ev, d, s⟩ ch dt).value = ev) := by
  have hS0 : 0 ≤ s + dt / d := add_nonneg hs0 (div_nonneg hdt hd.le)
  simp only [vfUpdateF32, hq, hsum]
  rw [clampStep_eq (s + dt / d) hS0]
  refine ⟨?_, ?_, ?_⟩
  · simp only [decide_eq_true_eq, ge_iff_le, le_min_iff, le_refl, true_and]
  · intro h
    rw [min_eq_right h.le]
  · intro h
    rw [min_eq_left h, hsub, one_mul, hsub,
      show sv + (ev - sv) = ev from by ring, hev]

/-- Helper: behaviour of one binary32 `ControllerFade.Update` under the
analogous exactness assumptions on the endpoints. -/
theorem cfUpdateF32_spec (si ei : Int) (d s dt : Rat) (m : FadeModule)
    (hs0 : 0 ≤ s) (hdt : 0 ≤ dt) (hd : 0 < d)
    (hq : fl32 (dt / d) = dt / d) (hsum : fl32 (s + dt / d) = s + dt / d)
    (hsi : fl32 (si : Rat) = (si : Rat)) (hei : fl32 (ei : Rat) = (ei : Rat))
    (hsub : fl32 ((ei : Rat) - (si : Rat)) = (ei : Rat) - (si : Rat)) :
    ((cfUpdateF32 ⟨si, ei, d, s⟩ m dt).completed = true ↔ 1 ≤ s + dt / d) ∧
    (s + dt / d < 1 →
      (cfUpdateF32 ⟨si, ei, d, s⟩ m dt).fade = ⟨si, ei, d, s + dt / d⟩) ∧
    (1 ≤ s + dt / d → (cfUpdateF32 ⟨si, ei, d, s⟩ m dt).value = ei) := by
  have hS0 : 0 ≤ s + dt / d := add_nonneg hs0 (div_nonneg hdt hd.le)
  simp only [cfUpdateF32, hq, hsum, hsi, hei]
  rw [clampStep_eq (s + dt / d) hS0]
  refine ⟨?_, ?_, ?_⟩
  · simp only [decide_eq_true_eq, ge_iff_le, le_min_iff, le_refl, true_and]
  · intro h
    rw [min_eq_right h.le]
  · intro h
    rw [min_eq_left h, hsub, one_mul, hsub,
      show (si : Rat) + ((ei : Rat) - (si : Rat)) = (ei : Rat) from by ring, hei]
    exact goTrunc_intCast ei

/-- Helper: a sum of quotients of non-negative rationals by a positive
rational is non-negative. -/
theorem sum_div_nonneg (d : Rat) (hd : 0 < d) (l : List Rat)
    (h : ∀ x ∈ l, 0 ≤ x) : 0 ≤ (l.map fun x => x / d).sum := by
  apply List.sum_nonneg
  intro x hx
  rw [List.mem_map] at hx
  obtain ⟨y, hy, rfl⟩ := hx
  exact div_nonneg (h y hy) hd.le

/-- Helper: a sum of elementwise quotients is the quotient of the sum. -/
theorem sum_map_div (l : List Rat) (d : Rat) :
    (l.map fun x => x / d).sum = l.sum / d := by
  induction l with
  | nil => simp
  | cons x xs ih => simp [ih, add_div]

/-- Helper: outputs of a binary32 `VolumeFade.Update` run, starting from
any exactly-tracked percent, under exactness of all encountered float32
operations: the k-th output completes iff the exact percent reaches 1,
and the first completing output carries the end volume. -/
theorem runVolumeFadeF32_output (dts : List Rat) :
    ∀ (sv ev d s : Rat) (ch : FadeChannel),
      0 < d → 0 ≤ s →
      (∀ x ∈ dts, 0 ≤ x) →
      (∀ x ∈ dts, fl32 (x / d) = x / d) →
      (∀ k : Nat, fl32 (s + ((dts.take k).map fun x => x / d).sum) =
        s + ((dts.take k).map fun x => x / d).sum) →
      fl32 (ev - sv) = ev - sv → fl32 ev = ev →
      ∀ (k : Nat) (v : Rat) (b : Bool),
        (runVolumeFadeF32 ⟨sv, ev, d, s⟩ ch dts).outputs.get? k = some (v, b) →
        (s + ((dts.take (k + 1)).map fun x => x / d).sum < 1 → b = false) ∧
        (1 ≤ s + ((dts.take (k + 1)).map fun x => x / d).sum ∧
            s + ((dts.take k).map fun x => x / d).sum < 1 →
          b = true ∧ v = ev) := by
  induction dts with
  | nil =>
    intro sv ev d s ch _ _ _ _ _ _ _ k v b hget
    simp [runVolumeFadeF32] at hget
  | cons dt rest ih =>
    intro sv ev d s ch hd hs0 hdts hquot hpart hsub hev k v b hget
    have hdt0 : 0 ≤ dt := hdts dt (by simp)
    have hq : fl32 (dt / d) = dt / d := hquot dt (by simp)
    have hsum1 : fl32 (s + dt / d) = s + dt / d := by
      have h := hpart 1
      simpa using h
    obtain ⟨hciff, hfade, hval⟩ :=
      vfUpdateF32_spec sv ev d s dt ch hs0 hdt0 hd hq hsum1 hsub hev
    cases k with
    | zero =>
      simp only [runVolumeFadeF32, List.get?_cons_zero, Option.some.injEq,
        Prod.mk.injEq] at hget
      obtain ⟨hv, hb⟩ := hget
      constructor
      · intro hlt
        simp only [List.take_succ_cons, List.take_zero, List.map_cons, List.map_nil,
          List.sum_cons, List.sum_nil, add_zero] at hlt
        have hne : (vfUpdateF32 ⟨sv, ev, d, s⟩ ch dt).completed ≠ true :=
          fun hc => absurd (hciff.mp hc) (by linarith)
        rw [← hb]
        exact Bool.eq_false_iff.mpr hne
      · intro hge
        obtain ⟨hge, _⟩ := hge
        simp only [List.take_succ_cons, List.take_zero, List.map_cons, List.map_nil,
          List.sum_cons, List.sum_nil, add_zero] at hge
        exact ⟨by rw [← hb]; exact hciff.mpr hge, by rw [← hv]; exact hval hge⟩
    | succ k =>
      simp only [runVolumeFadeF32, List.get?_cons_succ] at hget
      by_cases hlt : s + dt / d < 1
      · rw [hfade hlt] at hget
        have hpart' : ∀ k2 : Nat,
            fl32 (s + dt / d + ((rest.take k2).map fun x => x / d).sum) =
              s + dt / d + ((rest.take k2).map fun x => x / d).sum := by
          intro k2
          have h := hpart (k2 + 1)
          simp only [List.take_succ_cons, List.map_cons, List.sum_cons] at h
          rw [← add_assoc] at h
          exact h
        have H := ih sv ev d (s + dt / d) (vfUpdateF32 ⟨sv, ev, d, s⟩ ch dt).channel
          hd (add_nonneg hs0 (div_nonneg hdt0 hd.le))
          (fun x hx => hdts x (List.mem_cons_of_mem dt hx))
          (fun x hx => hquot x (List.mem_cons_of_mem dt hx))
          hpart' hsub hev k v b hget
        constructor
        · intro hlt2
          refine H.1 ?_
          simp only [List.take_succ_cons, List.map_cons, List.sum_cons] at hlt2
          linarith
        · intro hge2
          obtain ⟨hge2, hlt2⟩ := hge2
          refine H.2 ⟨?_, ?_⟩
          · simp only [List.take_succ_cons, List.map_cons, List.sum_cons] at hge2
            linarith
          · simp only [List.take_succ_cons, List.map_cons, List.sum_cons] at hlt2
            linarith
      · push_neg at hlt
        constructor
        · intro habs
          exfalso
          simp only [List.take_succ_cons, List.map_cons, List.sum_cons] at habs
          have h0 : 0 ≤ ((rest.take (k + 1)).map fun x => x / d).sum :=
            sum_div_nonneg d hd _
              (fun x hx => hdts x (List.mem_cons_of_mem dt (List.take_subset _ _ hx)))
          linarith
        · intro habs
          obtain ⟨_, habs⟩ := habs
          exfalso
          simp only [List.take_succ_cons, List.map_cons, List.sum_cons] at habs
          have h0 : 0 ≤ ((rest.take k).map fun x => x / d).sum :=
            sum_div_nonneg d hd _
              (fun x hx => hdts x (List.mem_cons_of_mem dt (List.take_subset _ _ hx)))
          linarith

/-- Helper: outputs of a binary32 `ControllerFade.Update` run, under the
analogous exactness assumptions. -/
theorem runControllerFadeF32_output (dts : List Rat) :
    ∀ (si ei : Int) (d s : Rat) (m : FadeModule),
      0 < d → 0 ≤ s →
      (∀ x ∈ dts, 0 ≤ x) →
      (∀ x ∈ dts, fl32 (x / d) = x / d) →
      (∀ k : Nat, fl32 (s + ((dts.take k).map fun x => x / d).sum) =
        s + ((dts.take k).map fun x => x / d).sum) →
      fl32 (si : Rat) = (si : Rat) → fl32 (ei : Rat) = (ei : Rat) →
      fl32 ((ei : Rat) - (si : Rat)) = (ei : Rat) - (si : Rat) →
      ∀ (k : Nat) (v : Int) (b : Bool),
        (runControllerFadeF32 ⟨si, ei, d, s⟩ m dts).outputs.get? k = some (v, b) →
        (s + ((dts.take (k + 1)).map fun x => x / d).sum < 1 → b = false) ∧
        (1 ≤ s + ((dts.take (k + 1)).map fun x => x / d).sum ∧
            s + ((dts.take k).map fun x => x / d).sum < 1 →
          b = true ∧ v = ei) := by
  induction dts with
  | nil =>
    intro si ei d s m _ _ _ _ _ _ _ _ k v b hget
    simp [runControllerFadeF32] at hget
  | cons dt rest ih =>
    intro si ei d s m hd hs0 hdts hquot hpart hsi hei hsub k v b hget
    have hdt0 : 0 ≤ dt := hdts dt (by simp)
    have hq : fl32 (dt / d) = dt / d := hquot dt (by simp)
    have hsum1 : fl32 (s + dt / d) = s + dt / d := by
      have h := hpart 1
      simpa using h
    obtain ⟨hciff, hfade, hval⟩ :=
      cfUpdateF32_spec si ei d s dt m hs0 hdt0 hd hq hsum1 hsi hei hsub
    cases k with
    | zero =>
      simp only [runControllerFadeF32, List.get?_cons_zero, Option.some.injEq,
        Prod.mk.injEq] at hget
      obtain ⟨hv, hb⟩ := hget
      constructor
      · intro hlt
        simp only [List.take_succ_cons, List.take_zero, List.map_cons, List.map_nil,
          List.sum_cons, List.sum_nil, add_zero] at hlt
        have hne : (cfUpdateF32 ⟨si, ei, d, s⟩ m dt).completed ≠ true :=
          fun hc => absurd (hciff.mp hc) (by linarith)
        rw [← hb]
        exact Bool.eq_false_iff.mpr hne
      · intro hge
        obtain ⟨hge, _⟩ := hge
        simp only [List.take_succ_cons, List.take_zero, List.map_cons, List.map_nil,
          List.sum_cons, List.sum_nil, add_zero] at hge
        exact ⟨by rw [← hb]; exact hciff.mpr hge, by rw [← hv]; exact hval hge⟩
    | succ k =>
      simp only [runControllerFadeF32, List.get?_cons_succ] at hget
      by_cases hlt : s + dt / d < 1
      · rw [hfade hlt] at hget
        have hpart' : ∀ k2 : Nat,
            fl32 (s + dt / d + ((rest.take k2).map fun x => x / d).sum) =
              s + dt / d + ((rest.take k2).map fun x => x / d).sum := by
          intro k2
          have h := hpart (k2 + 1)
          simp only [List.take_succ_cons, List.map_cons, List.sum_cons] at h
          rw [← add_assoc] at h
          exact h
        have H := ih si ei d (s + dt / d) (cfUpdateF32 ⟨si, ei, d, s⟩ m dt).module
          hd (add_nonneg hs0 (div_nonneg hdt0 hd.le))
          (fun x hx => hdts x (List.mem_cons_of_mem dt hx))
          (fun x hx => hquot x (List.mem_cons_of_mem dt hx))
          hpart' hsi hei hsub k v b hget
        constructor
        · intro hlt2
          refine H.1 ?_
          simp only [List.take_succ_cons, List.map_cons, List.sum_cons] at hlt2
          linarith
        · intro hge2
          obtain ⟨hge2, hlt2⟩ := hge2
          refine H.2 ⟨?_, ?_⟩
          · simp only [List.take_succ_cons, List.map_cons, List.sum_cons] at hge2
            linarith
          · simp only [List.take_succ_cons, List.map_cons, List.sum_cons] at hlt2
            linarith
      · push_neg at hlt
        constructor
        · intro habs
          exfalso
          simp only [List.take_succ_cons, List.map_cons, List.sum_cons] at habs
          have h0 : 0 ≤ ((rest.take (k + 1)).map fun x => x / d).sum :=
            sum_div_nonneg d hd _
              (fun x hx => hdts x (List.mem_cons_of_mem dt (List.take_subset _ _ hx)))
          linarith
        · intro habs
          obtain ⟨_, habs⟩ := habs
          exfalso
          simp only [List.take_succ_cons, List.map_cons, List.sum_cons] at habs
          have h0 : 0 ≤ ((rest.take k).map fun x => x / d).sum :=
            sum_div_nonneg d hd _
              (fun x hx => hdts x (List.mem_cons_of_mem dt (List.take_subset _ _ hx)))
          linarith

/-- C4 (counterexample): in real binary32 arithmetic both halves of the
claim fail.  A fade from 5 to 7 with duration 1 driven by the exact
float32 steps `0.5` and `0.5 - 2^-25` completes on the second update
although the step sum is below the duration, because
`fl32(0.5 + (0.5 - 2^-25)) = 1` by round-to-nearest, ties-to-even; and a
fade from 1 to `2^-25` with duration 1 completes with returned value 0,
not the end volume, because `fl32(2^-25 - 1) = -1` and `fl32(1 + (-1)) = 0`. -/
theorem c4_counterexample_float32 :
    ((runVolumeFadeF32 ⟨5, 7, 1, 0⟩ ⟨0, 0, 0⟩ [1 / 2, 16777215 / 33554432]).outputs.get? 1 =
        some (7, true) ∧
      (1 / 2 : Rat) + 16777215 / 33554432 < 1) ∧
    ((runVolumeFadeF32 ⟨1, 1 / 33554432, 1, 0⟩ ⟨0, 0, 0⟩ [1]).outputs.get? 0 =
        some (0, true) ∧
      (0 : Rat) ≠ 1 / 33554432) := by
  refine ⟨⟨?_, by norm_num⟩, ⟨?_, by norm_num⟩⟩
  · norm_num [runVolumeFadeF32, vfUpdateF32, fl32_half, fl32_one, fl32_two, fl32_six,
      fl32_seven, fl32_halfPred, fl32_tieOne, decide_eq_true_eq, decide_eq_false_iff_not]
  · norm_num [runVolumeFadeF32, vfUpdateF32, fl32_one, fl32_zero, fl32_negTie,
      fl32_negOne, decide_eq_true_eq, decide_eq_false_iff_not]

/-- C4 (amended): when every float32 operation the fade performs happens
to be exact — each quotient `dt/duration`, each partial sum of those
quotients, the difference and the end value of the interpolation — a
`VolumeFade.Update` or `ControllerFade.Update` never reports completion
while the cumulative dt sum is below the duration, and the first
completing update returns the end value exactly.  Without the exactness
hypotheses both parts are false (`c4_counterexample_float32`). -/
theorem c4_fades_completion_float32 :
    (∀ (sv ev d : Rat) (ch : FadeChannel) (dts : List Rat),
        0 < d →
        (∀ x ∈ dts, 0 ≤ x) →
        (∀ x ∈ dts, fl32 (x / d) = x / d) →
        (∀ k : Nat, fl32 (((dts.take k).map fun x => x / d).sum) =
          ((dts.take k).map fun x => x / d).sum) →
        fl32 (ev - sv) = ev - sv → fl32 ev = ev →
        ∀ (k : Nat) (v : Rat) (b : Bool),
          (runVolumeFadeF32 ⟨sv, ev, d, 0⟩ ch dts).outputs.get? k = some (v, b) →
          ((dts.take (k + 1)).sum < d → b = false) ∧
          (d ≤ (dts.take (k + 1)).sum ∧ (dts.take k).sum < d → b = true ∧ v = ev)) ∧
    (∀ (si ei : Int) (d : Rat) (m : FadeModule) (dts : List Rat),
        0 < d →
        (∀ x ∈ dts, 0 ≤ x) →
        (∀ x ∈ dts, fl32 (x / d) = x / d) →
        (∀ k : Nat, fl32 (((dts.take k).map fun x => x / d).sum) =
          ((dts.take k).map fun x => x / d).sum) →
        fl32 (si : Rat) = (si : Rat) → fl32 (ei : Rat) = (ei : Rat) →
        fl32 ((ei : Rat) - (si : Rat)) = (ei : Rat) - (si : Rat) →
        ∀ (k : Nat) (v : Int) (b : Bool),
          (runControllerFadeF32 ⟨si, ei, d, 0⟩ m dts).outputs.get? k = some (v, b) →
          ((dts.take (k + 1)).sum < d → b = false) ∧
          (d ≤ (dts.take (k + 1)).sum ∧ (dts.take k).sum < d → b = true ∧ v = ei)) := by
  constructor
  · intro sv ev d ch dts hd hdts hquot hpart hsub hev k v b hget
    have hpart0 : ∀ k2 : Nat,
        fl32 (0 + ((dts.take k2).map fun x => x / d).sum) =
          0 + ((dts.take k2).map fun x => x / d).sum := by
      intro k2
      rw [zero_add]
      exact hpart k2
    have H := runVolumeFadeF32_output dts sv ev d 0 ch hd le_rfl hdts hquot hpart0
      hsub hev k v b hget
    constructor
    · intro hlt
      refine H.1 ?_
      rw [zero_add, sum_map_div]
      exact (div_lt_one hd).mpr hlt
    · intro hc
      refine H.2 ⟨?_, ?_⟩
      · rw [zero_add, sum_map_div]
        exact (one_le_div hd).mpr hc.1
      · rw [zero_add, sum_map_div]
        exact (div_lt_one hd).mpr hc.2
  · intro si ei d m dts hd hdts hquot hpart hsi hei hsub k v b hget
    have hpart0 : ∀ k2 : Nat,
        fl32 (0 + ((dts.take k2).map fun x => x / d).sum) =
          0 + ((dts.take k2).map fun x => x / d).sum := by
      intro k2
      rw [zero_add]
      exact hpart k2
    have H := runControllerFadeF32_output dts si ei d 0 m hd le_rfl hdts hquot hpart0
      hsi hei hsub k v b hget
    constructor
    · intro hlt
      refine H.1 ?_
      rw [zero_add, sum_map_div]
      exact (div_lt_one hd).mpr hlt
    · intro hc
      refine H.2 ⟨?_, ?_⟩
      · rw [zero_add, sum_map_div]
        exact (one_le_div hd).mpr hc.1
      · rw [zero_add, sum_map_div]
        exact (div_lt_one hd).mpr hc.2

/-- Witness for `c4_fades_completion_float32`: a volume fade 5 to 7 and a
controller fade 3 to 9, duration 1, driven by the exact steps
`[0.5, 0.5]`, complete exactly on the second update with values 7 and 9. -/
theorem c4_fades_completion_float32_witness :
    ((0 : Rat) < 1 ∧
      (runVolumeFadeF32 ⟨5, 7, 1, 0⟩ ⟨0, 0, 0⟩ [1 / 2, 1 / 2]).outputs.get? 1 =
        some (7, true) ∧
      ((([1 / 2, 1 / 2] : List Rat).take 2).sum < 1 → (true : Bool) = false) ∧
      (1 ≤ (([1 / 2, 1 / 2] : List Rat).take 2).sum ∧
          (([1 / 2, 1 / 2] : List Rat).take 1).sum < 1 →
        (true : Bool) = true ∧ (7 : Rat) = 7)) ∧
    ((runControllerFadeF32 ⟨3, 9, 1, 0⟩ ⟨false, []⟩ [1 / 2, 1 / 2]).outputs.get? 1 =
        some (9, true) ∧
      ((([1 / 2, 1 / 2] : List Rat).take 2).sum < 1 → (true : Bool) = false) ∧
      (1 ≤ (([1 / 2, 1 / 2] : List Rat).take 2).sum ∧
          (([1 / 2, 1 / 2] : List Rat).take 1).sum < 1 →
        (true : Bool) = true ∧ (9 : Int) = 9)) := by
  have hmem : ∀ x ∈ ([1 / 2, 1 / 2] : List Rat), x = 1 / 2 := by
    intro x hx
    rw [List.mem_cons] at hx
    rcases hx with h | hx
    · exact h
    · rw [List.mem_singleton] at hx
      exact hx
  have hnn : ∀ x ∈ ([1 / 2, 1 / 2] : List Rat), 0 ≤ x := by
    intro x hx
    rw [hmem x hx]
    norm_num
  have hquot : ∀ x ∈ ([1 / 2, 1 / 2] : List Rat), fl32 (x / 1) = x / 1 := by
    intro x hx
    rw [hmem x hx]
    norm_num [fl32_half]
  have hpart : ∀ k : Nat,
      fl32 (((([1 / 2, 1 / 2] : List Rat).take k).map fun x => x / 1).sum) =
        ((([1 / 2, 1 / 2] : List Rat).take k).map fun x => x / 1).sum := by
    intro k
    match k with
    | 0 => simp [fl32_zero]
    | 1 => norm_num [fl32_half]
    | n + 2 =>
      norm_num [List.take_succ_cons, List.take_nil, fl32_one]
  have hgetV : (runVolumeFadeF32 ⟨5, 7, 1, 0⟩ ⟨0, 0, 0⟩ [1 / 2, 1 / 2]).outputs.get? 1 =
      some (7, true) := by
    norm_num [runVolumeFadeF32, vfUpdateF32, fl32_half, fl32_one, fl32_two, fl32_six,
      fl32_seven, decide_eq_true_eq, decide_eq_false_iff_not]
  have hgetC : (runControllerFadeF32 ⟨3, 9, 1, 0⟩ ⟨false, []⟩ [1 / 2, 1 / 2]).outputs.get? 1 =
      some (9, true) := by
    norm_num [runControllerFadeF32, cfUpdateF32, fl32_half, fl32_one, fl32_three,
      fl32_six, fl32_nine, goTrunc_six, goTrunc_nine, decide_eq_true_eq,
      decide_eq_false_iff_not]
  have HV := c4_fades_completion_float32.1 5 7 1 ⟨0, 0, 0⟩ [1 / 2, 1 / 2]
    (by norm_num) hnn hquot hpart (by norm_num [fl32_two]) (by norm_num [fl32_seven])
    1 7 true hgetV
  have HC := c4_fades_completion_float32.2 3 9 1 ⟨false, []⟩ [1 / 2, 1 / 2]
    (by norm_num) hnn hquot hpart (by norm_num [fl32_three]) (by norm_num [fl32_nine])
    (by norm_num [fl32_six]) 1 9 true hgetC
  exact ⟨⟨by norm_num, hgetV, HV.1, HV.2⟩, ⟨hgetC, HC.1, HC.2⟩⟩

/-- Helper: the slot scan over consecutive indices either reports -1 with
every scanned index occupied, or returns the least free scanned index. -/
theorem firstFreeAux_spec (channels : Finset Int) :
    ∀ (n a : Nat),
      (firstFreeAux channels (List.range' a n) = -1 ∧
        ∀ j : Nat, a ≤ j → j < a + n → (j : Int) ∈ channels) ∨
      (∃ i : Nat, a ≤ i ∧ i < a + n ∧
        firstFreeAux channels (List.range' a n) = (i : Int) ∧
        (i : Int) ∉ channels ∧ ∀ j : Nat, a ≤ j → j < i → (j : Int) ∈ channels) := by
  intro n
  induction n with
  | zero =>
    intro a
    left
    exact ⟨rfl, fun j hj1 hj2 => absurd hj2 (by omega)⟩
  | succ n ih =>
    intro a
    rw [List.range'_succ]
    by_cases hmem : (a : Int) ∈ channels
    · have hstep : firstFreeAux channels ((a : Nat) :: List.range' (a + 1) n) =
          firstFreeAux channels (List.range' (a + 1) n) := by
        simp [firstFreeAux, hmem]
      rw [hstep]
      rcases ih (a + 1) with ⟨h1, h2⟩ | ⟨i, hi1, hi2, hi3, hi4, hi5⟩
      · left
        refine ⟨h1, fun j hj1 hj2 => ?_⟩
        rcases Nat.eq_or_lt_of_le hj1 with heq | hlt
        · rw [← heq]; exact hmem
        · exact h2 j hlt (by omega)
      · right
        refine ⟨i, by omega, by omega, hi3, hi4, fun j hj1 hj2 => ?_⟩
        rcases Nat.eq_or_lt_of_le hj1 with heq | hlt
        · rw [← heq]; exact hmem
        · exact hi5 j hlt hj2
    · right
      refine ⟨a, le_refl a, by omega, ?_, hmem, fun j hj1 hj2 => absurd hj2 (by omega)⟩
      simp [firstFreeAux, hmem]

/-- Helper: the full 16-slot scan either reports -1 with slots 0-15 all
occupied, or returns the least free slot index in 0-15. -/
theorem firstFreeSlot_spec (channels : Finset Int) :
    (firstFreeSlot channels = -1 ∧ ∀ j : Nat, j < 16 → (j : Int) ∈ channels) ∨
    (∃ i : Nat, i < 16 ∧ firstFreeSlot channels = (i : Int) ∧ (i : Int) ∉ channels ∧
      ∀ j : Nat, j < i → (j : Int) ∈ channels) := by
  have h := firstFreeAux_spec channels 16 0
  unfold firstFreeSlot
  rw [List.range_eq_range']
  rcases h with ⟨h1, h2⟩ | ⟨i, _, hi2, hi3, hi4, hi5⟩
  · exact Or.inl ⟨h1, fun j hj => h2 j (by omega) (by omega)⟩
  · exact Or.inr ⟨i, by omega, hi3, hi4, fun j hji => hi5 j (by omega) hji⟩

/-- Helper: when the engine is initialized, the native open succeeds and a
slot in 0-15 is free, `CreateChannel` succeeds. -/
theorem createChannel_ok_of_free (openRes : Int → Int) (e : SunvoxEngineState)
    (hinit : e.initialized = true) (hopen : ∀ i, openRes i = 0)
    (hfree : ∃ j : Int, 0 ≤ j ∧ j < 16 ∧ j ∉ e.channels) :
    ∃ st i, createChannel openRes e = .ok (st, i) := by
  obtain ⟨j, hj0, hj16, hjfree⟩ := hfree
  rcases firstFreeSlot_spec e.channels with ⟨_, h2⟩ | ⟨i, _, hi2, _, _⟩
  · exact absurd (by
      have hcast : ((j.toNat : Nat) : Int) = j := Int.toNat_of_nonneg hj0
      have := h2 j.toNat (by omega)
      rwa [hcast] at this) hjfree
  · refine ⟨{ e with channels := insert (i : Int) e.channels }, (i : Int), ?_⟩
    simp only [createChannel, hinit]
    rw [hi2]
    rw [if_neg (by omega : ¬ ((i : Int) : Int) < 0)]
    simp [hopen]

/-- C2: with an initialized engine and a successful native layer,
`CreateChannel` assigns the lowest free slot index in 0-15 and registers
the channel there (so a slot holds at most one channel); when slots 0-15
are all occupied it returns the capacity error; when some slot in 0-15 is
free it succeeds; and after closing any slot a subsequent `CreateChannel`
succeeds again. -/
theorem c2_createChannel_slots (e : SunvoxEngineState) (openRes closeRes : Int → Int)
    (hinit : e.initialized = true)
    (hopen : ∀ i, openRes i = 0) (hclose : ∀ i, closeRes i = 0) :
    (∀ st i, createChannel openRes e = .ok (st, i) →
      0 ≤ i ∧ i < 16 ∧ i ∉ e.channels ∧
      (∀ j : Int, 0 ≤ j → j < i → j ∈ e.channels) ∧
      st.channels = insert i e.channels) ∧
    ((∀ j : Int, 0 ≤ j → j < 16 → j ∈ e.channels) →
      createChannel openRes e =
        .error "error: a maximum of 16 channels have been created already; close an existing channel") ∧
    ((∃ j : Int, 0 ≤ j ∧ j < 16 ∧ j ∉ e.channels) →
      ∃ st i, createChannel openRes e = .ok (st, i)) ∧
    (∀ c : Int, 0 ≤ c → c < 16 →
      ∃ st2, closeChannel closeRes e c = .ok st2 ∧ c ∉ st2.channels ∧
        ∃ st3 i, createChannel openRes st2 = .ok (st3, i)) := by
  refine ⟨?_, ?_, ?_, ?_⟩
  · intro st i hEq
    simp only [createChannel, hinit] at hEq
    rw [if_neg (show ¬ (true = false) by simp)] at hEq
    rcases firstFreeSlot_spec e.channels with ⟨h1, _⟩ | ⟨i0, hi1, hi2, hi3, hi4⟩
    · rw [h1] at hEq
      simp at hEq
    · rw [hi2, if_neg (by omega : ¬ ((i0 : Nat) : Int) < 0)] at hEq
      rw [if_neg (show ¬ (openRes ((i0 : Nat) : Int) ≠ 0) from
        fun h => h (hopen ((i0 : Nat) : Int)))] at hEq
      simp only [Except.ok.injEq, Prod.mk.injEq] at hEq
      obtain ⟨hst, hi⟩ := hEq
      refine ⟨by omega, by omega, by rw [← hi]; exact hi3, ?_, by rw [← hst, ← hi]⟩
      intro j hj0 hji
      have hcast : ((j.toNat : Nat) : Int) = j := Int.toNat_of_nonneg hj0
      have := hi4 j.toNat (by omega)
      rwa [hcast] at this
  · intro hfull
    rcases firstFreeSlot_spec e.channels with ⟨h1, _⟩ | ⟨i0, hi1, hi2, hi3, _⟩
    · simp [createChannel, hinit, h1]
    · exact absurd (hfull (i0 : Int) (by omega) (by omega)) hi3
  · exact createChannel_ok_of_free openRes e hinit hopen
  · intro c hc0 hc16
    refine ⟨{ e with channels := e.channels.erase c }, ?_, Finset.not_mem_erase c e.channels, ?_⟩
    · simp [closeChannel, hclose c]
    · exact createChannel_ok_of_free openRes { e with channels := e.channels.erase c }
        hinit hopen ⟨c, hc0, hc16, Finset.not_mem_erase c e.channels⟩

/-- C2 witness: the slot law applied to a fully occupied engine (slots
0-15 all taken): creation fails with the capacity error, and closing slot
5 makes a subsequent creation succeed. -/
theorem c2_createChannel_slots_witness :
    (⟨true, Finset.Icc (0 : Int) 15⟩ : SunvoxEngineState).initialized = true ∧
    createChannel (fun _ => 0) ⟨true, Finset.Icc (0 : Int) 15⟩ =
      .error "error: a maximum of 16 channels have been created already; close an existing channel" ∧
    (∃ st2, closeChannel (fun _ => 0) ⟨true, Finset.Icc (0 : Int) 15⟩ 5 = .ok st2 ∧
      (5 : Int) ∉ st2.channels ∧
      ∃ st3 i, createChannel (fun _ => 0) st2 = .ok (st3, i)) := by
  have h := c2_createChannel_slots ⟨true, Finset.Icc (0 : Int) 15⟩
    (fun _ => 0) (fun _ => 0) rfl (fun _ => rfl) (fun _ => rfl)
  refine ⟨rfl, ?_, ?_⟩
  · refine h.2.1 ?_
    intro j h0 h16
    rw [Finset.mem_Icc]
    omega
  · exact h.2.2.2 5 (by norm_num) (by norm_num)

/-- C1 counterexample: a non-overlapping layout with non-negative
positions — pattern 0 at line 0 spanning 10 lines, pattern 1 at line
99999999 spanning 10 lines — for which `SetCustomLoop(0, 10)` followed
immediately by `ResetCustomLoop()` does not restore the positions: pattern
1, moved left by exactly the sentinel amount in pass one, lands on line 0,
is then treated as a loop member by the reset, and ends at line 0 instead
of 99999999. -/
theorem c1_counterexample_roundtrip :
    (resetCustomLoop (setCustomLoop 0 10
        ⟨[⟨0, 10⟩, ⟨99999999, 10⟩], false, 0, 0⟩)).patterns.map SunvoxPatternState.x =
      [0, 0] ∧
    ([0, 0] : List Int) ≠ [0, 99999999] := by
  decide

/-- Helper: the `leastX` scan never increases its accumulator. -/
theorem leastX_foldl_le (a b : Int) :
    ∀ (l : List SunvoxPatternState) (acc : Int),
      l.foldl
        (fun acc p =>
          if p.x ≥ a ∧ p.x + p.lineCount ≤ b then
            (if p.x < acc then p.x else acc)
          else acc) acc ≤ acc := by
  intro l
  induction l with
  | nil => intro acc; exact le_refl acc
  | cons p rest ih =>
    intro acc
    refine le_trans (ih _) ?_
    show (if p.x ≥ a ∧ p.x + p.lineCount ≤ b then
        (if p.x < acc then p.x else acc) else acc) ≤ acc
    split_ifs <;> omega

/-- Helper: the `leastX` scan result is at most the position of any
pattern inside the scanned range. -/
theorem leastX_foldl_mem_le (a b : Int) :
    ∀ (l : List SunvoxPatternState) (acc : Int) (p : SunvoxPatternState),
      p ∈ l → p.x ≥ a → p.x + p.lineCount ≤ b →
      l.foldl
        (fun acc p =>
          if p.x ≥ a ∧ p.x + p.lineCount ≤ b then
            (if p.x < acc then p.x else acc)
          else acc) acc ≤ p.x := by
  intro l
  induction l with
  | nil => intro acc p hp _ _; exact absurd hp (List.not_mem_nil p)
  | cons q rest ih =>
    intro acc p hp hpa hpb
    rcases List.mem_cons.mp hp with heq | hmem
    · subst heq
      refine le_trans (leastX_foldl_le a b rest _) ?_
      show (if p.x ≥ a ∧ p.x + p.lineCount ≤ b then
          (if p.x < acc then p.x else acc) else acc) ≤ p.x
      rw [if_pos (⟨hpa, hpb⟩ : p.x ≥ a ∧ p.x + p.lineCount ≤ b)]
      split_ifs <;> omega
    · exact ih _ p hmem hpa hpb

/-- Helper: with a non-negative accumulator and non-negative pattern
positions, the `leastX` scan result is non-negative. -/
theorem leastX_foldl_nonneg (a b : Int) :
    ∀ (l : List SunvoxPatternState) (acc : Int),
      0 ≤ acc → (∀ p ∈ l, 0 ≤ p.x) →
      0 ≤ l.foldl
        (fun acc p =>
          if p.x ≥ a ∧ p.x + p.lineCount ≤ b then
            (if p.x < acc then p.x else acc)
          else acc) acc := by
  intro l
  induction l with
  | nil => intro acc hacc _; exact hacc
  | cons q rest ih =>
    intro acc hacc hpos
    refine ih _ ?_ (fun p hp => hpos p (by simp [hp]))
    have hq : 0 ≤ q.x := hpos q (by simp)
    show 0 ≤ (if q.x ≥ a ∧ q.x + q.lineCount ≤ b then
        (if q.x < acc then q.x else acc) else acc)
    split_ifs <;> omega

/-- Helper: the three per-pattern moves of `SetCustomLoop` pass one, pass
two and `ResetCustomLoop` cancel for any pattern whose position lies in
`[0, customLoopLineAmount)`, given the `leastX` bounds. -/
theorem c1_map_roundtrip (a b L : Int) :
    ∀ (pats : List SunvoxPatternState),
      (∀ p ∈ pats, 0 ≤ p.x ∧ p.x < customLoopLineAmount) →
      0 ≤ L →
      (∀ p ∈ pats, p.x ≥ a → p.x + p.lineCount ≤ b → L ≤ p.x) →
      (((pats.map fun p =>
            if p.x ≥ a ∧ p.x + p.lineCount ≤ b then p
            else if p.x > -100000 then { p with x := p.x - customLoopLineAmount }
            else p).map fun p =>
          if p.x > 0 then { p with x := p.x - L } else p).map fun p =>
        if p.x < 0 then { p with x := p.x + customLoopLineAmount }
        else { p with x := p.x + L }) = pats := by
  intro pats
  induction pats with
  | nil => intro _ _ _; rfl
  | cons p rest ih =>
    intro hpos hL0 hLle
    have hCL : customLoopLineAmount = 99999999 := rfl
    have htail := ih (fun q hq => hpos q (by simp [hq])) hL0
      (fun q hq => hLle q (by simp [hq]))
    obtain ⟨x, lc⟩ := p
    obtain ⟨hx0', hxCL'⟩ := hpos ⟨x, lc⟩ (by simp)
    have hx0 : 0 ≤ x := hx0'
    have hxCL : x < customLoopLineAmount := hxCL'
    have hple : x ≥ a → x + lc ≤ b → L ≤ x := hLle ⟨x, lc⟩ (by simp)
    rw [List.map_cons, List.map_cons, List.map_cons, htail, List.cons.injEq]
    refine ⟨?_, rfl⟩
    by_cases hin : x ≥ a ∧ x + lc ≤ b
    · have hLx : L ≤ x := hple hin.1 hin.2
      by_cases hxpos : x > 0
      · have hnn : ¬ (x - L < 0) := by omega
        simp [hin, hxpos, hnn]
      · have hnneg : ¬ (x < 0) := by omega
        have hLz : L = 0 := by omega
        simp [hin, hxpos, hnneg, hLz]
    · have hgt : x > -100000 := by omega
      have h2 : ¬ (x - customLoopLineAmount > 0) := by omega
      have h3 : x - customLoopLineAmount < 0 := by omega
      simp [hin, hgt, h2, h3]

/-- C1 amended: for every channel without a previous custom loop whose
patterns all sit at positions in `[0, 99999999)` (non-negative and below
the sentinel amount), `SetCustomLoop(a, b)` followed immediately by
`ResetCustomLoop()` restores every pattern exactly; the counterexample
shows the bound on positions is necessary. -/
theorem c1_customLoop_roundtrip (a b : Int) (pats : List SunvoxPatternState)
    (hpos : ∀ p ∈ pats, 0 ≤ p.x ∧ p.x < customLoopLineAmount) :
    (resetCustomLoop (setCustomLoop a b ⟨pats, false, 0, 0⟩)).patterns = pats := by
  by_cases hab : a = (0 : Int) ∧ b = (0 : Int)
  · rw [setCustomLoop, if_pos hab]
    rfl
  · rw [setCustomLoop, if_neg hab]
    have hs0 : resetCustomLoop ⟨pats, false, 0, 0⟩ = ⟨pats, false, 0, 0⟩ := rfl
    simp only [hs0]
    rw [resetCustomLoop]
    rw [if_neg (show ¬ (true = false) by simp)]
    have hL0 : 0 ≤ leastXCalc a b pats := by
      rw [leastXCalc]
      exact leastX_foldl_nonneg a b pats maxIntGo (by decide)
        (fun p hp => (hpos p hp).1)
    have hLle : ∀ p ∈ pats, p.x ≥ a → p.x + p.lineCount ≤ b →
        leastXCalc a b pats ≤ p.x := by
      intro p hp hpa hpb
      rw [leastXCalc]
      exact leastX_foldl_mem_le a b pats maxIntGo p hp hpa hpb
    exact c1_map_roundtrip a b (leastXCalc a b pats) pats hpos hL0 hLle

/-- C1 witness: the amended round-trip law applied to the layout of the
counterexample with pattern 1 moved inside the representable band (line
1000): positions 0 and 1000 are restored exactly. -/
theorem c1_customLoop_roundtrip_witness :
    (∀ p ∈ ([⟨0, 10⟩, ⟨1000, 10⟩] : List SunvoxPatternState),
      0 ≤ p.x ∧ p.x < customLoopLineAmount) ∧
    (resetCustomLoop (setCustomLoop 0 10
        ⟨[⟨0, 10⟩, ⟨1000, 10⟩], false, 0, 0⟩)).patterns =
      [⟨0, 10⟩, ⟨1000, 10⟩] :=
  ⟨by decide, c1_customLoop_roundtrip 0 10 [⟨0, 10⟩, ⟨1000, 10⟩] (by decide)⟩

end SunvoxGo
